import Mathlib

/-!
# Verification of the EnsembleMetric / CentralTendencyEnsembleMetric core

Shallow embedding of the ensemble accumulation and aggregation engine from
`vmullig/ensemble_metrics` (`protocols/ensemble_metrics/EnsembleMetric.cc` and
`protocols/ensemble_metrics/metrics/CentralTendencyEnsembleMetric.cc`, plus the
MPI variant of the latter).

Modelling conventions:
* `core::Real` (C++ `double`) is embedded as `ℚ`, i.e. the arithmetic is exact.
  The two memoized fields that the C++ computes with `std::sqrt`
  (`stddev_`, `stderr_`) are stored as their exact squares
  (`stddev_sq_`, `stderr_sq_`); the C++ doubles are `√stddev_sq_` and
  `√stderr_sq_` in exact real arithmetic, and the theorems about them are
  phrased through `Real.sqrt` applied to these fields.
* Poses, movers (the generating protocol, the previous multi-output mover) and
  the configured simple metric are external collaborators.  A pose is
  represented by the rational value the configured real-valued simple metric
  measures on it; mover/protocol references are opaque handles (`Option ℕ`)
  whose only observable property used by the core is presence.  The outcomes
  of protocol applications (success with a measured value, or failure) are
  supplied as inputs to `apply`.
* A C++ `runtime_assert` failure (a thrown error) is modelled by returning
  `some e` for an error `e` alongside the state as mutated up to the throw.
* Emission of the final report text to the tracer/file sinks is
  reporting-destination plumbing outside the core; `produce_final_report`
  models the state changes both sink paths perform (they call
  `produce_final_report_string`, which calls `finalize_values`) and the
  setting of `finalized_` after the output switch.
-/

namespace EnsembleMetrics

/-- The output-mode enum `EnsembleMetricOutputMode` (configuration data only;
the sink chosen does not affect the accumulated state). -/
inductive EnsembleMetricOutputMode where
  | tracer
  | tracer_and_file
  | file
deriving DecidableEq

/-- The errors raised by `runtime_assert_string_msg` calls (and the one
undefined-behaviour crash) in the modelled operations. -/
inductive EMError where
  /-- `EnsembleMetric::apply`: "has already been finalized". -/
  | alreadyFinalized
  /-- `CentralTendencyEnsembleMetric::finalize_values`: "At least one pose must
  be seen before ensemble properties can be calculated." -/
  | emptyEnsemble
  /-- `EnsembleMetric::get_real_metric_value_by_name`: "The final report has
  not yet been generated". -/
  | notFinalized
  /-- `EnsembleMetric::get_real_metric_value_by_name`: unknown metric name. -/
  | unknownMetricName
  /-- `EnsembleMetric::generate_one_ensemble_entry` dereferences the null
  pointer returned by `get_additional_output()` once the upstream multi-output
  mover is exhausted (undefined behaviour / crash). -/
  | nullPoseDereference
deriving DecidableEq

/-- The state of a `CentralTendencyEnsembleMetric` object: the `EnsembleMetric`
base-class fields followed by the derived-class fields, with the C++ member
names and default member initializers. -/
structure CTEnsembleMetric where
  /-- Base: has the final report been produced? -/
  finalized_ : Bool := false
  /-- Base: use additional output from the previous mover as the ensemble? -/
  use_additional_output_from_last_mover_ : Bool := false
  /-- Base: where the report is sent. -/
  output_mode_ : EnsembleMetricOutputMode := .tracer
  /-- Base: output file name (used when the mode involves a file). -/
  output_filename_ : String := ""
  /-- Base: optional prefix for the metric's label. -/
  label_prefix_ : String := ""
  /-- Base: optional suffix for the metric's label. -/
  label_suffix_ : String := ""
  /-- Base: opaque reference to the previous mover (`nullptr` = `none`). -/
  last_mover_ : Option Nat := none
  /-- Base: opaque reference to the ensemble-generating protocol. -/
  ensemble_generating_protocol_ : Option Nat := none
  /-- Base: number of times the ensemble-generating protocol is applied. -/
  ensemble_generating_protocol_repeats_ : Nat := 1
  /-- Base: number of poses in the ensemble seen so far. -/
  poses_in_ensemble_ : Nat := 0
  /-- Base: number of threads requested (0 = all available). -/
  n_threads_ : Nat := 1
  /-- Derived: the values accumulated so far (`utility::vector1<core::Real>`). -/
  values_ : List ℚ := []
  /-- Derived: memoized mean. -/
  mean_ : ℚ := 0
  /-- Derived: memoized median. -/
  median_ : ℚ := 0
  /-- Derived: memoized mode. -/
  mode_ : ℚ := 0
  /-- Derived: square of the memoized standard error `stderr_`
  (the C++ double `stderr_` is `√stderr_sq_`; both start at `0.0`). -/
  stderr_sq_ : ℚ := 0
  /-- Derived: square of the memoized standard deviation `stddev_`
  (the C++ double `stddev_` is `√stddev_sq_`; both start at `0.0`). -/
  stddev_sq_ : ℚ := 0
  /-- Derived: memoized minimum. -/
  min_ : ℚ := 0
  /-- Derived: memoized maximum. -/
  max_ : ℚ := 0
  /-- Derived: memoized range. -/
  range_ : ℚ := 0
  /-- Derived: have the values been finalized (statistics memoized)? -/
  derived_finalized_ : Bool := false
deriving DecidableEq

/-- 1-based element access of `utility::vector1` (all accesses performed by the
modelled code are in range; out-of-range access yields the default `0`). -/
def vget (l : List ℚ) (i : Nat) : ℚ := l.getD (i - 1) 0

/-- One iteration of the mode-finding loop in
`CentralTendencyEnsembleMetric::finalize_values` over the `counts` map.  The
running state is `(accumulator2, maxsize, maxsize_counter)` and `p` is the
`(value, count)` pair at the current map iterator. -/
def modeStep (st : ℚ × Nat × Nat) (p : ℚ × Nat) : ℚ × Nat × Nat :=
  if p.2 > st.2.1 then (p.1, p.2, 1)
  else if p.2 = st.2.1 then (st.1 + p.1, st.2.1, st.2.2 + 1)
  else st

/-- The mode-finding loop of `finalize_values`, folded over the `(value,
count)` pairs of the `counts` map in iteration (ascending key) order, starting
from `accumulator2 = 0.0`, `maxsize = 0`, `maxsize_counter = 0`. -/
def modeFold (ps : List (ℚ × Nat)) : ℚ × Nat × Nat := ps.foldl modeStep (0, 0, 0)

/-- The contents of the `std::map<core::Real, core::Size> counts` built by the
first loop of `finalize_values`: each distinct accumulated value mapped to its
number of occurrences, in ascending key order (`std::map` iteration order). -/
def countsList (V : List ℚ) : List (ℚ × Nat) :=
  ((V.insertionSort (· ≤ ·)).dedup).map (fun k => (k, V.count k))

/-- `CentralTendencyEnsembleMetric::finalize_values`: memoize the aggregate
statistics.  Returns the mutated state and `some e` if a `runtime_assert`
throws.  Mirrors the C++ statement by statement: the memoization flag
`derived_finalized_` is set *before* the non-empty check. -/
def finalize_values (m : CTEnsembleMetric) : CTEnsembleMetric × Option EMError :=
  if m.derived_finalized_ then (m, none)
  else
    let m := { m with derived_finalized_ := true }
    if m.poses_in_ensemble_ = 0 then (m, some .emptyEnsemble)
    else
      -- Mean (std::accumulate over values_, divided by poses_in_ensemble()):
      let mean : ℚ := (m.values_.foldl (· + ·) 0) / (m.poses_in_ensemble_ : ℚ)
      -- Median, min, max, range (1-based indexing into the sorted copy):
      let values_sorted : List ℚ := m.values_.insertionSort (· ≤ ·)
      let len : Nat := values_sorted.length
      let median : ℚ :=
        if len % 2 = 0 then
          (vget values_sorted (len / 2) + vget values_sorted (len / 2 + 1)) / 2
        else
          vget values_sorted (len / 2 + 1)
      let mn : ℚ := vget values_sorted 1
      let mx : ℚ := vget values_sorted len
      -- Mode, stddev, stderr:
      let accumulator : ℚ := m.values_.foldl (fun a x => a + (x - mean) ^ 2) 0
      let stddev_sq : ℚ := accumulator / (m.values_.length : ℚ)
      let r := modeFold (countsList m.values_)
      { m with
          mean_ := mean
          median_ := median
          min_ := mn
          max_ := mx
          range_ := mx - mn
          stddev_sq_ := stddev_sq
          stderr_sq_ := stddev_sq / (m.values_.length : ℚ)
          mode_ := r.1 / (r.2.2 : ℚ) } |> (·, none)

/-- `EnsembleMetric::produce_final_report`: emit the report through the
configured sink(s) and set `finalized_`.  Every sink path calls
`produce_final_report_string`, which calls `finalize_values`; `finalized_` is
set after the output switch, so an error from `finalize_values` propagates
before it is set.  (The report text itself is out-of-scope plumbing.) -/
def produce_final_report (m : CTEnsembleMetric) : CTEnsembleMetric × Option EMError :=
  match finalize_values m with
  | (m1, none) => ({ m1 with finalized_ := true }, none)
  | (m1, some e) => (m1, some e)

/-- `CentralTendencyEnsembleMetric::add_pose_to_ensemble`: measure the pose
with the configured simple metric (the measured value `v` is supplied by the
environment) and append it to `values_`. -/
def add_pose_to_ensemble (m : CTEnsembleMetric) (v : ℚ) : CTEnsembleMetric :=
  { m with values_ := m.values_ ++ [v] }

/-- The `++poses_in_ensemble_; add_pose_to_ensemble(pose);` pair that `apply`
and `generate_one_ensemble_entry` perform for each successfully measured
sample. -/
def add_one (m : CTEnsembleMetric) (v : ℚ) : CTEnsembleMetric :=
  add_pose_to_ensemble { m with poses_in_ensemble_ := m.poses_in_ensemble_ + 1 } v

/-- The data one work item of the generate-ensemble mode consumes from its
external collaborators: the outcome of applying the cloned protocol to the
cloned seed pose (`some v` = success with measured value `v`, `none` =
failure), and, when an upstream multi-output mover clone was supplied, the
outcomes for each additional output pose the mover produces before it is
exhausted. -/
structure GenAttempt where
  first : Option ℚ
  extra : List (Option ℚ)
deriving DecidableEq

/-- Success branch of one protocol application inside
`generate_one_ensemble_entry`: on `MS_SUCCESS` the measurement is appended
under the accumulation lock (`++poses_in_ensemble_; add_pose_to_ensemble`);
on failure the attempt is logged and nothing is accumulated. -/
def apply_protocol_outcome (m : CTEnsembleMetric) (o : Option ℚ) : CTEnsembleMetric :=
  match o with
  | some v => add_one m v
  | none => m

/-- The multi-output part of the `do … while` loop in
`generate_one_ensemble_entry`: after measuring the current pose the code runs
`my_pose->detached_copy( *last_mover_copy->get_additional_output() )` with no
null check, so when the mover is exhausted (`rest = []`) the returned null
pointer is dereferenced — the loop never exits normally.  The `Bool` result
records that crash. -/
def entry_multi_loop (m : CTEnsembleMetric) (rest : List (Option ℚ)) :
    CTEnsembleMetric × Bool :=
  match rest with
  | [] => (m, true)
  | o :: rest' => entry_multi_loop (apply_protocol_outcome m o) rest'

/-- `EnsembleMetric::generate_one_ensemble_entry` for one work item:
clone seed pose and protocol (clones are exclusively owned, no observable
state change), apply the protocol, accumulate on success; when
`last_mover_copy` is null, failure returns and success finishes the single
iteration; when a multi-output mover clone was supplied, continue with
`entry_multi_loop`. -/
def generate_one_ensemble_entry (doing_multiple_outputs : Bool)
    (m : CTEnsembleMetric) (att : GenAttempt) : CTEnsembleMetric × Bool :=
  let m1 := apply_protocol_outcome m att.first
  if doing_multiple_outputs then entry_multi_loop m1 att.extra
  else (m1, false)

/-- The work vector built by `generate_ensemble_and_apply_to_poses`, executed
item by item (the accumulation order across items is unspecified in the
multi-threaded build; the sequential order is one admissible schedule).  A
crash in one item (null-pose dereference) aborts execution. -/
def run_work_vector (doing_multiple_outputs : Bool) (m : CTEnsembleMetric) :
    List GenAttempt → CTEnsembleMetric × Bool
  | [] => (m, false)
  | a :: rest =>
    match generate_one_ensemble_entry doing_multiple_outputs m a with
    | (m1, true) => (m1, true)
    | (m1, false) => run_work_vector doing_multiple_outputs m1 rest

/-- `EnsembleMetric::generate_ensemble_and_apply_to_poses`: build the work
vector (one item per configured repeat; the per-item external data is the
`atts` list) and run it. -/
def generate_ensemble_and_apply_to_poses (m : CTEnsembleMetric)
    (atts : List GenAttempt) : CTEnsembleMetric × Bool :=
  run_work_vector (m.last_mover_.isSome && m.use_additional_output_from_last_mover_) m atts

/-- The external data consumed by one `apply(pose)` call: the measured value
of the supplied pose, the measured values of the additional outputs drained
from the previous mover (multi-output drain mode), and the per-work-item data
for generate-ensemble mode. -/
structure ApplyInput where
  pose_value : ℚ
  mover_extra_values : List ℚ
  attempts : List GenAttempt
deriving DecidableEq

/-- `EnsembleMetric::apply`: the non-virtual entry point.  Checks
`finalized_` first; then dispatches on configuration: external-sample /
multi-output-drain mode (no generating protocol) or generate-ensemble mode. -/
def apply (m : CTEnsembleMetric) (inp : ApplyInput) : CTEnsembleMetric × Option EMError :=
  if m.finalized_ then (m, some .alreadyFinalized)
  else if m.ensemble_generating_protocol_ = none then
    let m1 := add_one m inp.pose_value
    if m1.use_additional_output_from_last_mover_ && m1.last_mover_.isSome then
      produce_final_report (inp.mover_extra_values.foldl add_one m1)
    else (m1, none)
  else
    match generate_ensemble_and_apply_to_poses m inp.attempts with
    | (m1, true) => (m1, some .nullPoseDereference)
    | (m1, false) => produce_final_report m1

/-- `CentralTendencyEnsembleMetric::derived_reset`: clear the derived data. -/
def derived_reset (m : CTEnsembleMetric) : CTEnsembleMetric :=
  { m with
      mean_ := 0, median_ := 0, mode_ := 0
      stddev_sq_ := 0, stderr_sq_ := 0
      min_ := 0, max_ := 0, range_ := 0
      values_ := []
      derived_finalized_ := false }

/-- `EnsembleMetric::reset`: clear the base-class ensemble state and call
`derived_reset`. -/
def reset (m : CTEnsembleMetric) : CTEnsembleMetric :=
  derived_reset { m with poses_in_ensemble_ := 0, finalized_ := false }

/-- `CentralTendencyEnsembleMetric::recv_mpi_summary`: receive a count from
any peer, and if it is positive receive that many values from the same
originating peer, append them to `values_` and increment
`poses_in_ensemble_`.  The message is modelled by the originating peer id and
the payload it sent (the received count is the payload length).  Returns the
new state and the originating peer id. -/
def recv_mpi_summary (m : CTEnsembleMetric) (originating_proc : Nat)
    (payload : List ℚ) : CTEnsembleMetric × Nat :=
  if payload.length = 0 then (m, originating_proc)
  else
    ({ m with
        values_ := m.values_ ++ payload
        poses_in_ensemble_ := m.poses_in_ensemble_ + payload.length },
      originating_proc)

/-- The metric names the CentralTendency metric exposes
(`metric_names_for_class`). -/
def metric_names_for_class : List String :=
  ["mean", "median", "mode", "stddev", "stderr", "min", "max", "range"]

/-- `CentralTendencyEnsembleMetric::derived_get_metric_by_name` (the names
`stddev` and `stderr` yield the squares of the C++ doubles, per the field
convention). -/
def derived_get_metric_by_name (m : CTEnsembleMetric) (metric_name : String) : ℚ :=
  if metric_name = "mean" then m.mean_
  else if metric_name = "median" then m.median_
  else if metric_name = "mode" then m.mode_
  else if metric_name = "stddev" then m.stddev_sq_
  else if metric_name = "stderr" then m.stderr_sq_
  else if metric_name = "min" then m.min_
  else if metric_name = "max" then m.max_
  else if metric_name = "range" then m.range_
  else 0

/-- `EnsembleMetric::get_real_metric_value_by_name`: requires `finalized_`,
then a recognized name, then delegates to the derived lookup. -/
def get_real_metric_value_by_name (m : CTEnsembleMetric) (metric_name : String) :
    Except EMError ℚ :=
  if !m.finalized_ then .error .notFinalized
  else if metric_name ∈ metric_names_for_class then
    .ok (derived_get_metric_by_name m metric_name)
  else .error .unknownMetricName

/-- `CentralTendencyEnsembleMetric::~CentralTendencyEnsembleMetric`: on
destruction, an unfinalized metric with at least one accumulated pose produces
its final report.  Returns the state at destruction and whether a report was
attempted. -/
def destructor (m : CTEnsembleMetric) : CTEnsembleMetric × Bool :=
  if m.finalized_ = false ∧ m.poses_in_ensemble_ > 0 then
    ((produce_final_report m).1, true)
  else (m, false)

/-- Specification-side: the largest number of occurrences any distinct value
has in `V`. -/
def max_multiplicity (V : List ℚ) : Nat :=
  (V.dedup.map fun k => V.count k).foldl max 0

/-- Specification-side: the distinct values of `V` whose occurrence count
attains `max_multiplicity V` (the values tied for "the mode"). -/
def tied_modes (V : List ℚ) : List ℚ :=
  V.dedup.filter fun k => V.count k = max_multiplicity V

/-- The largest count in a `(value, count)` list. -/
def pairsMax (ps : List (ℚ × Nat)) : Nat := ps.foldl (fun a p => max a p.2) 0

/-- The keys of a `(value, count)` list whose count attains `pairsMax`. -/
def pairsTied (ps : List (ℚ × Nat)) : List ℚ :=
  (ps.filter fun p => p.2 = pairsMax ps).map Prod.fst

/-- The Accumulator invariant: the reported sample count equals the length of
the accumulated value sequence. -/
def count_invariant (m : CTEnsembleMetric) : Prop :=
  m.poses_in_ensemble_ = m.values_.length

/-- The states reachable by the modelled operations from a freshly constructed
metric (any configuration, no accumulated data). -/
inductive Reachable : CTEnsembleMetric → Prop where
  | init : ∀ m : CTEnsembleMetric, m.values_ = [] → m.poses_in_ensemble_ = 0 →
      Reachable m
  | step_apply : ∀ m inp, Reachable m → Reachable (apply m inp).1
  | step_recv : ∀ m p payload, Reachable m → Reachable (recv_mpi_summary m p payload).1
  | step_reset : ∀ m, Reachable m → Reachable (reset m)
  | step_report : ∀ m, Reachable m → Reachable (produce_final_report m).1

/-! ## General list helper lemmas -/

theorem foldl_add_eq_sum (l : List ℚ) : ∀ a : ℚ, l.foldl (· + ·) a = a + l.sum := by
  induction l with
  | nil => simp
  | cons x t ih => intro a; simp [ih, add_assoc]

theorem foldl_add_map_eq_sum (f : ℚ → ℚ) (l : List ℚ) :
    ∀ a : ℚ, l.foldl (fun s x => s + f x) a = a + (l.map f).sum := by
  induction l with
  | nil => simp
  | cons x t ih => intro a; simp [ih, add_assoc]

theorem getD_zero_mem {l : List ℚ} (h : l ≠ []) : l.getD 0 0 ∈ l := by
  cases l with
  | nil => exact absurd rfl h
  | cons a t => simp

theorem sorted_getD_zero_le {l : List ℚ} (hs : l.Sorted (· ≤ ·)) :
    ∀ x ∈ l, l.getD 0 0 ≤ x := by
  cases l with
  | nil => simp
  | cons a t =>
    intro x hx
    rcases List.mem_cons.mp hx with rfl | hxt
    · simp
    · simpa using (List.sorted_cons.mp hs).1 x hxt

theorem getD_last_mem : ∀ {l : List ℚ}, l ≠ [] → l.getD (l.length - 1) 0 ∈ l := by
  intro l
  induction l with
  | nil => simp
  | cons a t ih =>
    intro _
    cases t with
    | nil => simp
    | cons b u =>
      have hstep : (a :: b :: u).getD ((a :: b :: u).length - 1) 0
          = (b :: u).getD ((b :: u).length - 1) 0 := by
        simp [List.getD_cons_succ]
      rw [hstep]
      exact List.mem_cons_of_mem a (ih (by simp))

theorem sorted_le_getD_last : ∀ {l : List ℚ}, l.Sorted (· ≤ ·) →
    ∀ x ∈ l, x ≤ l.getD (l.length - 1) 0 := by
  intro l
  induction l with
  | nil => simp
  | cons a t ih =>
    intro hs x hx
    rcases List.sorted_cons.mp hs with ⟨ha, ht⟩
    cases t with
    | nil =>
      simp only [List.mem_singleton] at hx
      subst hx; simp
    | cons b u =>
      have hstep : (a :: b :: u).getD ((a :: b :: u).length - 1) 0
          = (b :: u).getD ((b :: u).length - 1) 0 := by
        simp [List.getD_cons_succ]
      rw [hstep]
      rcases List.mem_cons.mp hx with rfl | hxt
      · exact ha _ (getD_last_mem (List.cons_ne_nil _ _))
      · exact ih ht x hxt

/-! ## Projection lemmas for finalize_values -/

theorem finalize_values_memoized (m : CTEnsembleMetric) (hd : m.derived_finalized_ = true) :
    finalize_values m = (m, none) := by
  rw [finalize_values]; simp [hd]

theorem finalize_values_empty (m : CTEnsembleMetric) (hd : m.derived_finalized_ = false)
    (hp : m.poses_in_ensemble_ = 0) :
    finalize_values m = ({ m with derived_finalized_ := true }, some .emptyEnsemble) := by
  rw [finalize_values]; simp [hd, hp]

theorem finalize_values_ok (m : CTEnsembleMetric) (hd : m.derived_finalized_ = false)
    (hpz : ¬ m.poses_in_ensemble_ = 0) :
    (finalize_values m).2 = none := by
  rw [finalize_values]; simp [hd, hpz]

theorem finalize_values_mean (m : CTEnsembleMetric) (hd : m.derived_finalized_ = false)
    (hpz : ¬ m.poses_in_ensemble_ = 0) :
    (finalize_values m).1.mean_
      = (m.values_.foldl (· + ·) 0) / (m.poses_in_ensemble_ : ℚ) := by
  rw [finalize_values]; simp [hd, hpz]

theorem finalize_values_median (m : CTEnsembleMetric) (hd : m.derived_finalized_ = false)
    (hpz : ¬ m.poses_in_ensemble_ = 0) :
    (finalize_values m).1.median_
      = (if (m.values_.insertionSort (· ≤ ·)).length % 2 = 0 then
          (vget (m.values_.insertionSort (· ≤ ·)) ((m.values_.insertionSort (· ≤ ·)).length / 2)
            + vget (m.values_.insertionSort (· ≤ ·))
                ((m.values_.insertionSort (· ≤ ·)).length / 2 + 1)) / 2
        else
          vget (m.values_.insertionSort (· ≤ ·))
            ((m.values_.insertionSort (· ≤ ·)).length / 2 + 1)) := by
  rw [finalize_values]; simp [hd, hpz]

theorem finalize_values_min (m : CTEnsembleMetric) (hd : m.derived_finalized_ = false)
    (hpz : ¬ m.poses_in_ensemble_ = 0) :
    (finalize_values m).1.min_ = vget (m.values_.insertionSort (· ≤ ·)) 1 := by
  rw [finalize_values]; simp [hd, hpz]

theorem finalize_values_max (m : CTEnsembleMetric) (hd : m.derived_finalized_ = false)
    (hpz : ¬ m.poses_in_ensemble_ = 0) :
    (finalize_values m).1.max_
      = vget (m.values_.insertionSort (· ≤ ·)) (m.values_.insertionSort (· ≤ ·)).length := by
  rw [finalize_values]; simp [hd, hpz]

theorem finalize_values_range (m : CTEnsembleMetric) (hd : m.derived_finalized_ = false)
    (hpz : ¬ m.poses_in_ensemble_ = 0) :
    (finalize_values m).1.range_ = (finalize_values m).1.max_ - (finalize_values m).1.min_ := by
  rw [finalize_values]; simp [hd, hpz]

theorem finalize_values_stddev_sq (m : CTEnsembleMetric) (hd : m.derived_finalized_ = false)
    (hpz : ¬ m.poses_in_ensemble_ = 0) :
    (finalize_values m).1.stddev_sq_
      = (m.values_.foldl (fun a x => a + (x - (finalize_values m).1.mean_) ^ 2) 0)
          / (m.values_.length : ℚ) := by
  rw [finalize_values]; simp [hd, hpz]

theorem finalize_values_stderr_sq (m : CTEnsembleMetric) (hd : m.derived_finalized_ = false)
    (hpz : ¬ m.poses_in_ensemble_ = 0) :
    (finalize_values m).1.stderr_sq_
      = (finalize_values m).1.stddev_sq_ / (m.values_.length : ℚ) := by
  rw [finalize_values]; simp [hd, hpz]

theorem finalize_values_mode (m : CTEnsembleMetric) (hd : m.derived_finalized_ = false)
    (hpz : ¬ m.poses_in_ensemble_ = 0) :
    (finalize_values m).1.mode_
      = (modeFold (countsList m.values_)).1 / ((modeFold (countsList m.values_)).2.2 : ℚ) := by
  rw [finalize_values]; simp [hd, hpz]

theorem finalize_values_frame (m : CTEnsembleMetric) :
    (finalize_values m).1.values_ = m.values_ ∧
    (finalize_values m).1.poses_in_ensemble_ = m.poses_in_ensemble_ ∧
    (finalize_values m).1.finalized_ = m.finalized_ ∧
    (finalize_values m).1.ensemble_generating_protocol_ = m.ensemble_generating_protocol_ ∧
    (finalize_values m).1.use_additional_output_from_last_mover_
      = m.use_additional_output_from_last_mover_ ∧
    (finalize_values m).1.last_mover_ = m.last_mover_ := by
  rw [finalize_values]
  by_cases h1 : m.derived_finalized_ = true
  · simp [h1]
  · by_cases h2 : m.poses_in_ensemble_ = 0 <;> simp [h1, h2]

/-! ## Mode-loop lemmas -/

theorem foldl_max_init_le (l : List Nat) : ∀ a : Nat, a ≤ l.foldl max a := by
  induction l with
  | nil => simp
  | cons b t ih => intro a; exact le_trans (le_max_left a b) (ih (max a b))

theorem le_foldl_max (l : List Nat) : ∀ (a b : Nat), b ∈ l → b ≤ l.foldl max a := by
  induction l with
  | nil => simp
  | cons c t ih =>
    intro a b hb
    rcases List.mem_cons.mp hb with rfl | h
    · exact le_trans (le_max_right a b) (foldl_max_init_le t _)
    · exact ih _ _ h

theorem pairsMax_eq_foldl (ps : List (ℚ × Nat)) :
    pairsMax ps = (ps.map Prod.snd).foldl max 0 := by
  simp [pairsMax, List.foldl_map]

theorem le_pairsMax {ps : List (ℚ × Nat)} {p : ℚ × Nat} (hp : p ∈ ps) :
    p.2 ≤ pairsMax ps := by
  rw [pairsMax_eq_foldl]
  exact le_foldl_max _ _ _ (List.mem_map_of_mem _ hp)

theorem pairsMax_snoc (ps : List (ℚ × Nat)) (x : ℚ × Nat) :
    pairsMax (ps ++ [x]) = max (pairsMax ps) x.2 := by
  simp [pairsMax, List.foldl_append]

theorem modeStep_snoc (pre : List (ℚ × Nat)) (x : ℚ × Nat) :
    modeStep ((pairsTied pre).sum, pairsMax pre, (pairsTied pre).length) x
      = ((pairsTied (pre ++ [x])).sum, pairsMax (pre ++ [x]),
          (pairsTied (pre ++ [x])).length) := by
  rcases lt_trichotomy (pairsMax pre) x.2 with hgt | heq | hlt
  · have hmax : pairsMax (pre ++ [x]) = x.2 := by
      rw [pairsMax_snoc]; exact max_eq_right hgt.le
    have hfilter : (pre.filter fun p => p.2 = pairsMax (pre ++ [x])) = [] := by
      rw [List.filter_eq_nil_iff]
      intro p hp
      simp only [hmax, decide_eq_true_eq]
      exact ne_of_lt (lt_of_le_of_lt (le_pairsMax hp) hgt)
    have htied : pairsTied (pre ++ [x]) = [x.1] := by
      unfold pairsTied
      rw [List.filter_append, hfilter]
      simp [hmax]
    rw [htied, hmax]
    simp [modeStep, hgt]
  · have hmax : pairsMax (pre ++ [x]) = pairsMax pre := by
      rw [pairsMax_snoc, ← heq, max_self]
    have htied : pairsTied (pre ++ [x]) = pairsTied pre ++ [x.1] := by
      unfold pairsTied
      rw [List.filter_append, hmax]
      simp [← heq]
    rw [htied, hmax]
    simp [modeStep, heq.symm, lt_irrefl]
  · have hmax : pairsMax (pre ++ [x]) = pairsMax pre := by
      rw [pairsMax_snoc]; exact max_eq_left hlt.le
    have htied : pairsTied (pre ++ [x]) = pairsTied pre := by
      unfold pairsTied
      rw [List.filter_append, hmax]
      simp [ne_of_lt hlt]
    rw [htied, hmax]
    simp [modeStep, not_lt.mpr hlt.le, ne_of_lt hlt]

theorem modeFold_go : ∀ (rest pre : List (ℚ × Nat)),
    List.foldl modeStep ((pairsTied pre).sum, pairsMax pre, (pairsTied pre).length) rest
      = ((pairsTied (pre ++ rest)).sum, pairsMax (pre ++ rest),
          (pairsTied (pre ++ rest)).length) := by
  intro rest
  induction rest with
  | nil => intro pre; simp
  | cons x rest' ih =>
    intro pre
    rw [List.foldl_cons, modeStep_snoc, ih (pre ++ [x])]
    simp

theorem modeFold_eq (ps : List (ℚ × Nat)) :
    modeFold ps = ((pairsTied ps).sum, pairsMax ps, (pairsTied ps).length) := by
  have h := modeFold_go ps []
  simpa [modeFold, pairsTied, pairsMax] using h

theorem countsList_map_snd (V : List ℚ) :
    (countsList V).map Prod.snd
      = ((V.insertionSort (· ≤ ·)).dedup).map fun k => V.count k := by
  simp [countsList, List.map_map, Function.comp]

theorem pairsMax_countsList (V : List ℚ) :
    pairsMax (countsList V) = max_multiplicity V := by
  rw [pairsMax_eq_foldl, countsList_map_snd, max_multiplicity]
  have hperm : List.Perm (V.insertionSort (· ≤ ·)).dedup V.dedup :=
    (V.perm_insertionSort _).dedup
  exact (hperm.map _).foldl_eq 0

theorem pairsTied_countsList (V : List ℚ) :
    pairsTied (countsList V)
      = ((V.insertionSort (· ≤ ·)).dedup).filter
          fun k => V.count k = max_multiplicity V := by
  unfold pairsTied
  rw [pairsMax_countsList]
  unfold countsList
  rw [List.filter_map, List.map_map]
  simp [Function.comp_def]

theorem tied_modes_perm (V : List ℚ) :
    List.Perm
      (((V.insertionSort (· ≤ ·)).dedup).filter
        fun k => V.count k = max_multiplicity V)
      (tied_modes V) := by
  unfold tied_modes
  exact ((V.perm_insertionSort _).dedup).filter _

theorem modeFold_countsList (V : List ℚ) :
    (modeFold (countsList V)).1 = (tied_modes V).sum ∧
    (modeFold (countsList V)).2.2 = (tied_modes V).length := by
  rw [modeFold_eq, pairsTied_countsList]
  exact ⟨(tied_modes_perm V).sum_eq, (tied_modes_perm V).length_eq⟩

/-! ## Invariant-preservation lemmas for the count invariant -/

theorem add_one_invariant {m : CTEnsembleMetric} (h : count_invariant m) (v : ℚ) :
    count_invariant (add_one m v) := by
  simp [count_invariant, add_one, add_pose_to_ensemble] at h ⊢
  exact h

theorem foldl_add_one_invariant (vs : List ℚ) : ∀ m : CTEnsembleMetric, count_invariant m →
    count_invariant (vs.foldl add_one m) := by
  induction vs with
  | nil => intro m h; simpa using h
  | cons v t ih => intro m h; exact ih _ (add_one_invariant h v)

theorem apply_protocol_outcome_invariant {m : CTEnsembleMetric} (h : count_invariant m)
    (o : Option ℚ) : count_invariant (apply_protocol_outcome m o) := by
  cases o with
  | none => simpa [apply_protocol_outcome] using h
  | some v => simpa [apply_protocol_outcome] using add_one_invariant h v

theorem entry_multi_loop_invariant (rest : List (Option ℚ)) :
    ∀ m : CTEnsembleMetric, count_invariant m →
    count_invariant (entry_multi_loop m rest).1 := by
  induction rest with
  | nil => intro m h; simpa [entry_multi_loop] using h
  | cons o t ih =>
    intro m h
    simpa [entry_multi_loop] using ih _ (apply_protocol_outcome_invariant h o)

theorem generate_one_ensemble_entry_invariant (dm : Bool) (att : GenAttempt)
    {m : CTEnsembleMetric} (h : count_invariant m) :
    count_invariant (generate_one_ensemble_entry dm m att).1 := by
  unfold generate_one_ensemble_entry
  cases dm with
  | true =>
    simpa using entry_multi_loop_invariant att.extra _
      (apply_protocol_outcome_invariant h att.first)
  | false => simpa using apply_protocol_outcome_invariant h att.first

theorem run_work_vector_invariant (dm : Bool) (atts : List GenAttempt) :
    ∀ m : CTEnsembleMetric, count_invariant m →
    count_invariant (run_work_vector dm m atts).1 := by
  induction atts with
  | nil => intro m h; simpa [run_work_vector] using h
  | cons a t ih =>
    intro m h
    have hinv := generate_one_ensemble_entry_invariant dm a h
    rw [run_work_vector]
    rcases hE : generate_one_ensemble_entry dm m a with ⟨m1, b⟩
    rw [hE] at hinv
    cases b
    · simpa using ih m1 hinv
    · simpa using hinv

theorem finalize_values_invariant {m : CTEnsembleMetric} (h : count_invariant m) :
    count_invariant (finalize_values m).1 := by
  have hf := finalize_values_frame m
  unfold count_invariant at h ⊢
  rw [hf.1, hf.2.1]
  exact h

theorem produce_final_report_invariant {m : CTEnsembleMetric} (h : count_invariant m) :
    count_invariant (produce_final_report m).1 := by
  have hinv := finalize_values_invariant h
  unfold produce_final_report
  rcases hE : finalize_values m with ⟨m1, e⟩
  rw [hE] at hinv
  cases e
  · simpa [count_invariant] using hinv
  · simpa [count_invariant] using hinv

theorem apply_invariant (inp : ApplyInput) {m : CTEnsembleMetric} (h : count_invariant m) :
    count_invariant (apply m inp).1 := by
  unfold apply
  by_cases hf : m.finalized_ = true
  · simpa [hf] using h
  · simp only [hf, Bool.false_eq_true, if_false]
    by_cases hg : m.ensemble_generating_protocol_ = none
    · simp only [hg, if_true, if_pos]
      by_cases hd : (add_one m inp.pose_value).use_additional_output_from_last_mover_
          && (add_one m inp.pose_value).last_mover_.isSome
      · simpa [hd] using produce_final_report_invariant
          (foldl_add_one_invariant _ _ (add_one_invariant h _))
      · simpa [hd] using add_one_invariant h inp.pose_value
    · simp only [hg, if_false]
      have hinv := run_work_vector_invariant
        (m.last_mover_.isSome && m.use_additional_output_from_last_mover_)
        inp.attempts m h
      unfold generate_ensemble_and_apply_to_poses
      rcases hE : run_work_vector
          (m.last_mover_.isSome && m.use_additional_output_from_last_mover_)
          m inp.attempts with ⟨m1, b⟩
      rw [hE] at hinv
      cases b
      · simpa using produce_final_report_invariant hinv
      · simpa using hinv

theorem recv_invariant (p : Nat) (payload : List ℚ) {m : CTEnsembleMetric}
    (h : count_invariant m) : count_invariant (recv_mpi_summary m p payload).1 := by
  unfold recv_mpi_summary
  split_ifs with h0
  · exact h
  · unfold count_invariant at h ⊢
    simp [h]

theorem reset_invariant (m : CTEnsembleMetric) : count_invariant (reset m) := by
  simp [count_invariant, reset, derived_reset]

theorem entry_multi_loop_crashes (rest : List (Option ℚ)) :
    ∀ m : CTEnsembleMetric, (entry_multi_loop m rest).2 = true := by
  induction rest with
  | nil => intro m; rfl
  | cons o t ih => intro m; simpa [entry_multi_loop] using ih _

theorem finalize_values_derived (m : CTEnsembleMetric) (hd : m.derived_finalized_ = false)
    (hpz : ¬ m.poses_in_ensemble_ = 0) :
    (finalize_values m).1.derived_finalized_ = true := by
  rw [finalize_values]; simp [hd, hpz]

/-! ## Claim theorems -/

/-- C5: in every mode, invoking `apply` after the finalization flag has been
set fails with the already-finalized error and leaves the whole state — in
particular the accumulated Value Set and the sample count — unchanged; when
the flag is clear, adding a value (external-sample mode) appends it to the
Value Set and increments the count. -/
theorem C5_apply_respects_finalization (m : CTEnsembleMetric) (inp : ApplyInput) :
    (m.finalized_ = true → apply m inp = (m, some .alreadyFinalized)) ∧
    (m.finalized_ = false → m.ensemble_generating_protocol_ = none →
      (m.use_additional_output_from_last_mover_ = false ∨ m.last_mover_ = none) →
      apply m inp
        = ({ m with values_ := m.values_ ++ [inp.pose_value],
                    poses_in_ensemble_ := m.poses_in_ensemble_ + 1 }, none)) := by
  constructor
  · intro hf; unfold apply; simp [hf]
  · intro hf hg hmode
    unfold apply
    rcases hmode with h | h <;>
      simp [add_one, add_pose_to_ensemble, h, hf, hg]

/-- C5 witness: concrete instances of both parts. -/
theorem C5_apply_respects_finalization_witness :
    apply ({ finalized_ := true } : CTEnsembleMetric) ⟨2, [], []⟩
      = ({ finalized_ := true }, some .alreadyFinalized) ∧
    apply ({} : CTEnsembleMetric) ⟨2, [], []⟩
      = ({ values_ := [2], poses_in_ensemble_ := 1 }, none) := by
  constructor
  · exact (C5_apply_respects_finalization _ _).1 rfl
  · have h := (C5_apply_respects_finalization ({} : CTEnsembleMetric) ⟨2, [], []⟩).2
      rfl rfl (Or.inl rfl)
    simpa using h

/-- C6: at every point between operations — after any sequence of `apply`
calls in any mode, distributed receives, resets, and report productions — the
reported sample count `poses_in_ensemble_` equals the length of the
accumulated Value Set. -/
theorem C6_count_equals_value_set_length (m : CTEnsembleMetric) (h : Reachable m) :
    m.poses_in_ensemble_ = m.values_.length := by
  induction h with
  | init m h1 h2 => rw [h1, h2]; rfl
  | step_apply m inp _ ih => exact apply_invariant inp ih
  | step_recv m p payload _ ih => exact recv_invariant p payload ih
  | step_reset m _ _ => exact reset_invariant m
  | step_report m _ ih => exact produce_final_report_invariant ih

/-- C6 witness: the invariant at a concrete reachable state. -/
theorem C6_count_equals_value_set_length_witness :
    (apply ({} : CTEnsembleMetric) ⟨3, [], []⟩).1.poses_in_ensemble_
      = (apply ({} : CTEnsembleMetric) ⟨3, [], []⟩).1.values_.length :=
  C6_count_equals_value_set_length _
    (Reachable.step_apply _ _ (Reachable.init _ rfl rfl))

/-- C7: a distributed-merge receive first reads a count from any peer; a zero
count completes immediately with the originating peer's identity and no data
movement; a positive count appends exactly the received values to the
accumulator, increments the count by the received amount, and returns the
originating peer's identity. -/
theorem C7_recv_mpi_summary_spec (m : CTEnsembleMetric) (origin : Nat)
    (payload : List ℚ) :
    recv_mpi_summary m origin [] = (m, origin) ∧
    (recv_mpi_summary m origin payload).2 = origin ∧
    (recv_mpi_summary m origin payload).1.values_ = m.values_ ++ payload ∧
    (recv_mpi_summary m origin payload).1.poses_in_ensemble_
      = m.poses_in_ensemble_ + payload.length := by
  refine ⟨by simp [recv_mpi_summary], ?_, ?_, ?_⟩ <;>
  · unfold recv_mpi_summary
    split_ifs with h0
    · simp [List.length_eq_zero.mp h0]
    · simp

/-- C8: with an upstream multi-output mover clone supplied
(`doing_multiple_outputs = true`), the measurement loop of a generate-ensemble
work item never terminates normally: when the mover's additional outputs are
exhausted, `get_additional_output()` returns null and the loop dereferences it
(the crash flag is `true` for every input).  The second conjunct evaluates the
simplest failing input: the protocol application succeeds once and the mover
has no additional outputs. -/
theorem C8_multi_output_entry_always_crashes (m : CTEnsembleMetric) (att : GenAttempt) :
    (generate_one_ensemble_entry true m att).2 = true ∧
    generate_one_ensemble_entry true ({} : CTEnsembleMetric) ⟨some 1, []⟩
      = ({ values_ := [1], poses_in_ensemble_ := 1 }, true) := by
  constructor
  · unfold generate_one_ensemble_entry
    simp only [if_true]
    exact entry_multi_loop_crashes att.extra _
  · decide

/-- C9: `reset()` clears the accumulated Value Set, the sample count, the
finalization flags and the memoized statistics, while preserving every
configuration field. -/
theorem C9_reset_clears_data_preserves_config (m : CTEnsembleMetric) :
    (reset m).values_ = [] ∧
    (reset m).poses_in_ensemble_ = 0 ∧
    (reset m).finalized_ = false ∧
    (reset m).derived_finalized_ = false ∧
    (reset m).mean_ = 0 ∧
    (reset m).median_ = 0 ∧
    (reset m).mode_ = 0 ∧
    (reset m).stddev_sq_ = 0 ∧
    (reset m).stderr_sq_ = 0 ∧
    (reset m).min_ = 0 ∧
    (reset m).max_ = 0 ∧
    (reset m).range_ = 0 ∧
    (reset m).ensemble_generating_protocol_ = m.ensemble_generating_protocol_ ∧
    (reset m).ensemble_generating_protocol_repeats_
      = m.ensemble_generating_protocol_repeats_ ∧
    (reset m).n_threads_ = m.n_threads_ ∧
    (reset m).use_additional_output_from_last_mover_
      = m.use_additional_output_from_last_mover_ ∧
    (reset m).output_mode_ = m.output_mode_ ∧
    (reset m).output_filename_ = m.output_filename_ ∧
    (reset m).label_prefix_ = m.label_prefix_ ∧
    (reset m).label_suffix_ = m.label_suffix_ ∧
    (reset m).last_mover_ = m.last_mover_ := by
  simp [reset, derived_reset]

/-- C10: the destructor of an unfinalized metric with at least one accumulated
pose produces the final report (setting both flags and memoizing the computed
statistics); destroyed unfinalized with zero accumulated poses, no report is
attempted. -/
theorem C10_destructor_reports (m : CTEnsembleMetric) :
    (m.finalized_ = false → 0 < m.poses_in_ensemble_ →
      destructor m = ((produce_final_report m).1, true)) ∧
    (m.finalized_ = false → m.poses_in_ensemble_ = 0 → destructor m = (m, false)) ∧
    (m.finalized_ = false → 0 < m.poses_in_ensemble_ → m.derived_finalized_ = false →
      (destructor m).1.finalized_ = true ∧
      (destructor m).1.derived_finalized_ = true ∧
      (destructor m).1.mean_ = m.values_.sum / (m.poses_in_ensemble_ : ℚ)) := by
  refine ⟨?_, ?_, ?_⟩
  · intro hf hp
    simp [destructor, hf, hp]
  · intro hf hp
    simp [destructor, hf, hp]
  · intro hf hp hd
    have hpz : ¬ m.poses_in_ensemble_ = 0 := by omega
    have hdest : destructor m = ((produce_final_report m).1, true) := by
      simp [destructor, hf, hp]
    have hok := finalize_values_ok m hd hpz
    have hderiv := finalize_values_derived m hd hpz
    have hmean := finalize_values_mean m hd hpz
    rw [hdest]
    unfold produce_final_report
    rcases hE : finalize_values m with ⟨m1, e⟩
    rw [hE] at hok hderiv hmean
    simp only at hok
    subst hok
    refine ⟨rfl, by simpa using hderiv, ?_⟩
    simpa [foldl_add_eq_sum] using hmean

/-- C10 witness: concrete instances of all three parts. -/
theorem C10_destructor_reports_witness :
    (destructor ({ values_ := [2], poses_in_ensemble_ := 1 } : CTEnsembleMetric)
      = ((produce_final_report { values_ := [2], poses_in_ensemble_ := 1 }).1, true)) ∧
    destructor ({} : CTEnsembleMetric) = ({}, false) ∧
    (destructor ({ values_ := [2], poses_in_ensemble_ := 1 } : CTEnsembleMetric)).1.finalized_
      = true := by
  refine ⟨(C10_destructor_reports _).1 rfl (by decide), (C10_destructor_reports _).2.1 rfl rfl, ?_⟩
  exact ((C10_destructor_reports _).2.2 rfl (by decide) rfl).1

/-- C1: after finalization of a non-empty accumulated value sequence `V` of
length `n`, the memoized statistics satisfy `mean = sum(V)/n`, `min` and `max`
are the smallest and largest elements of `V`, `range = max - min`,
`stddev = sqrt(sum((x-mean)^2)/n)` (population form) and
`stderr = stddev / sqrt n`; in particular for `V = [1,1,2,1,0]` this gives
`mean = 1`, `stddev = √(2/5) = √0.4`, `stderr = √0.4 / √5`, `min = 0`,
`max = 2`, `range = 2`. -/
theorem C1_finalize_central_statistics (m : CTEnsembleMetric)
    (hd : m.derived_finalized_ = false)
    (hn : m.values_ ≠ [])
    (hp : m.poses_in_ensemble_ = m.values_.length) :
    (finalize_values m).2 = none ∧
    (finalize_values m).1.mean_ = m.values_.sum / (m.values_.length : ℚ) ∧
    (finalize_values m).1.min_ ∈ m.values_ ∧
    (∀ x ∈ m.values_, (finalize_values m).1.min_ ≤ x) ∧
    (finalize_values m).1.max_ ∈ m.values_ ∧
    (∀ x ∈ m.values_, x ≤ (finalize_values m).1.max_) ∧
    (finalize_values m).1.range_
      = (finalize_values m).1.max_ - (finalize_values m).1.min_ ∧
    (finalize_values m).1.stddev_sq_
      = ((m.values_.map (fun x => (x - (finalize_values m).1.mean_) ^ 2)).sum)
          / (m.values_.length : ℚ) ∧
    Real.sqrt ((finalize_values m).1.stddev_sq_ : ℝ)
      = Real.sqrt
          ((((m.values_.map (fun x => (x - (finalize_values m).1.mean_) ^ 2)).sum
              / (m.values_.length : ℚ) : ℚ)) : ℝ) ∧
    Real.sqrt ((finalize_values m).1.stderr_sq_ : ℝ)
      = Real.sqrt ((finalize_values m).1.stddev_sq_ : ℝ)
          / Real.sqrt (m.values_.length : ℝ) ∧
    (m.values_ = [1, 1, 2, 1, 0] →
      (finalize_values m).1.mean_ = 1 ∧
      (finalize_values m).1.stddev_sq_ = 2 / 5 ∧
      Real.sqrt ((finalize_values m).1.stddev_sq_ : ℝ) = Real.sqrt (2 / 5 : ℝ) ∧
      Real.sqrt ((finalize_values m).1.stderr_sq_ : ℝ)
        = Real.sqrt (2 / 5 : ℝ) / Real.sqrt (5 : ℝ) ∧
      (finalize_values m).1.min_ = 0 ∧
      (finalize_values m).1.max_ = 2 ∧
      (finalize_values m).1.range_ = 2) := by
  have hpz : ¬ m.poses_in_ensemble_ = 0 := by
    rw [hp]; exact fun h => hn (List.length_eq_zero.mp h)
  have hmean := finalize_values_mean m hd hpz
  have hmin := finalize_values_min m hd hpz
  have hmax := finalize_values_max m hd hpz
  have hrange := finalize_values_range m hd hpz
  have hsd := finalize_values_stddev_sq m hd hpz
  have hse := finalize_values_stderr_sq m hd hpz
  have hperm : List.Perm (m.values_.insertionSort (· ≤ ·)) m.values_ :=
    m.values_.perm_insertionSort _
  have hsorted : (m.values_.insertionSort (· ≤ ·)).Sorted (· ≤ ·) :=
    m.values_.sorted_insertionSort _
  have hsne : m.values_.insertionSort (· ≤ ·) ≠ [] := by
    intro h0
    apply hn
    have hl := hperm.length_eq
    rw [h0] at hl
    exact List.length_eq_zero.mp hl.symm
  have hslen : (m.values_.insertionSort (· ≤ ·)).length = m.values_.length :=
    hperm.length_eq
  have hmean' : (finalize_values m).1.mean_ = m.values_.sum / (m.values_.length : ℚ) := by
    rw [hmean, foldl_add_eq_sum, hp, zero_add]
  have hminmem : (finalize_values m).1.min_ ∈ m.values_ := by
    rw [hmin]
    exact hperm.subset (getD_zero_mem hsne)
  have hminle : ∀ x ∈ m.values_, (finalize_values m).1.min_ ≤ x := by
    intro x hx
    rw [hmin]
    exact sorted_getD_zero_le hsorted x (hperm.mem_iff.mpr hx)
  have hmaxmem : (finalize_values m).1.max_ ∈ m.values_ := by
    rw [hmax]
    exact hperm.subset (getD_last_mem hsne)
  have hmaxge : ∀ x ∈ m.values_, x ≤ (finalize_values m).1.max_ := by
    intro x hx
    rw [hmax]
    exact sorted_le_getD_last hsorted x (hperm.mem_iff.mpr hx)
  have hsd' : (finalize_values m).1.stddev_sq_
      = ((m.values_.map (fun x => (x - (finalize_values m).1.mean_) ^ 2)).sum)
          / (m.values_.length : ℚ) := by
    rw [hsd, foldl_add_map_eq_sum, zero_add]
  have hsdnn : (0 : ℚ) ≤ (finalize_values m).1.stddev_sq_ := by
    rw [hsd']
    apply div_nonneg
    · apply List.sum_nonneg
      intro y hy
      rcases List.mem_map.mp hy with ⟨x, _, rfl⟩
      positivity
    · positivity
  have hse' : Real.sqrt ((finalize_values m).1.stderr_sq_ : ℝ)
      = Real.sqrt ((finalize_values m).1.stddev_sq_ : ℝ)
          / Real.sqrt (m.values_.length : ℝ) := by
    rw [hse]
    push_cast
    rw [Real.sqrt_div (by exact_mod_cast hsdnn)]
  refine ⟨finalize_values_ok m hd hpz, hmean', hminmem, hminle, hmaxmem, hmaxge,
    hrange, hsd', by rw [hsd'], hse', ?_⟩
  intro hv
  have hsort : (([1, 1, 2, 1, 0] : List ℚ).insertionSort (· ≤ ·)) = [0, 1, 1, 1, 2] := by
    norm_num [List.insertionSort, List.orderedInsert]
  have hm1 : (finalize_values m).1.mean_ = 1 := by
    rw [hmean', hv]; norm_num
  have hsdval : (finalize_values m).1.stddev_sq_ = 2 / 5 := by
    rw [hsd', hm1, hv]; norm_num
  have hminv : (finalize_values m).1.min_ = 0 := by
    rw [hmin, hv, hsort]; norm_num [vget]
  have hmaxv : (finalize_values m).1.max_ = 2 := by
    rw [hmax, hv, hsort]; norm_num [vget]
  refine ⟨hm1, hsdval, by rw [hsdval]; norm_num, ?_, hminv, hmaxv, ?_⟩
  · rw [hse', hsdval, hv]
    norm_num
  · rw [hrange, hminv, hmaxv]
    norm_num

/-- C1 witness: the theorem applied to the concrete state accumulating
`[1,1,2,1,0]`. -/
theorem C1_finalize_central_statistics_witness :
    (finalize_values
      ({ values_ := [1, 1, 2, 1, 0], poses_in_ensemble_ := 5 } : CTEnsembleMetric)).2
        = none ∧
    (finalize_values
      ({ values_ := [1, 1, 2, 1, 0], poses_in_ensemble_ := 5 } : CTEnsembleMetric)).1.mean_
        = 1 ∧
    (finalize_values
      ({ values_ := [1, 1, 2, 1, 0], poses_in_ensemble_ := 5 } : CTEnsembleMetric)).1.min_
        = 0 ∧
    (finalize_values
      ({ values_ := [1, 1, 2, 1, 0], poses_in_ensemble_ := 5 } : CTEnsembleMetric)).1.max_
        = 2 ∧
    (finalize_values
      ({ values_ := [1, 1, 2, 1, 0], poses_in_ensemble_ := 5 } : CTEnsembleMetric)).1.range_
        = 2 ∧
    (finalize_values
      ({ values_ := [1, 1, 2, 1, 0], poses_in_ensemble_ := 5 } : CTEnsembleMetric)).1.stddev_sq_
        = 2 / 5 := by
  have h := C1_finalize_central_statistics
    { values_ := [1, 1, 2, 1, 0], poses_in_ensemble_ := 5 } rfl (by decide) rfl
  obtain ⟨h1, -, -, -, -, -, -, -, -, -, hex⟩ := h
  have he := hex rfl
  exact ⟨h1, he.1, he.2.2.2.2.1, he.2.2.2.2.2.1, he.2.2.2.2.2.2, he.2.1⟩

/-- C2: the memoized median equals, on the ascending-sorted copy of the
values, the average of the two middle elements (0-indexed `n/2 - 1` and `n/2`)
for even `n` and the single middle element (0-indexed `(n-1)/2`) for odd `n`;
`[1,1,1,1,0]` gives median `1` and `[0,1,1,2,1,1,3,0]` gives median `1`. -/
theorem C2_median_spec (m : CTEnsembleMetric)
    (hd : m.derived_finalized_ = false)
    (hn : m.values_ ≠ [])
    (hp : m.poses_in_ensemble_ = m.values_.length) :
    (finalize_values m).2 = none ∧
    (m.values_.insertionSort (· ≤ ·)).Sorted (· ≤ ·) ∧
    List.Perm (m.values_.insertionSort (· ≤ ·)) m.values_ ∧
    (m.values_.length % 2 = 0 →
      (finalize_values m).1.median_
        = ((m.values_.insertionSort (· ≤ ·)).getD (m.values_.length / 2 - 1) 0
            + (m.values_.insertionSort (· ≤ ·)).getD (m.values_.length / 2) 0) / 2) ∧
    (m.values_.length % 2 = 1 →
      (finalize_values m).1.median_
        = (m.values_.insertionSort (· ≤ ·)).getD ((m.values_.length - 1) / 2) 0) ∧
    (m.values_ = [1, 1, 1, 1, 0] → (finalize_values m).1.median_ = 1) ∧
    (m.values_ = [0, 1, 1, 2, 1, 1, 3, 0] → (finalize_values m).1.median_ = 1) := by
  have hpz : ¬ m.poses_in_ensemble_ = 0 := by
    rw [hp]; exact fun h => hn (List.length_eq_zero.mp h)
  have hmed := finalize_values_median m hd hpz
  have hslen : (m.values_.insertionSort (· ≤ ·)).length = m.values_.length :=
    (m.values_.perm_insertionSort _).length_eq
  rw [hslen] at hmed
  refine ⟨finalize_values_ok m hd hpz, m.values_.sorted_insertionSort _,
    m.values_.perm_insertionSort _, ?_, ?_, ?_, ?_⟩
  · intro heven
    rw [hmed, if_pos heven]
    simp only [vget, Nat.add_sub_cancel]
  · intro hodd
    have h2 : ¬ m.values_.length % 2 = 0 := by omega
    rw [hmed, if_neg h2]
    simp only [vget, Nat.add_sub_cancel]
    congr 1
    omega
  · intro hv
    have hsort : (([1, 1, 1, 1, 0] : List ℚ).insertionSort (· ≤ ·))
        = [0, 1, 1, 1, 1] := by
      norm_num [List.insertionSort, List.orderedInsert]
    rw [hmed, hv, hsort]
    norm_num [vget]
  · intro hv
    have hsort : (([0, 1, 1, 2, 1, 1, 3, 0] : List ℚ).insertionSort (· ≤ ·))
        = [0, 0, 1, 1, 1, 1, 2, 3] := by
      norm_num [List.insertionSort, List.orderedInsert]
    rw [hmed, hv, hsort]
    norm_num [vget]

/-- C2 witness: the theorem applied to both parity examples. -/
theorem C2_median_spec_witness :
    (finalize_values
      ({ values_ := [1, 1, 1, 1, 0], poses_in_ensemble_ := 5 } : CTEnsembleMetric)).1.median_
        = 1 ∧
    (finalize_values
      ({ values_ := [0, 1, 1, 2, 1, 1, 3, 0],
          poses_in_ensemble_ := 8 } : CTEnsembleMetric)).1.median_ = 1 := by
  constructor
  · exact (C2_median_spec { values_ := [1, 1, 1, 1, 0], poses_in_ensemble_ := 5 }
      rfl (by decide) rfl).2.2.2.2.2.1 rfl
  · exact (C2_median_spec { values_ := [0, 1, 1, 2, 1, 1, 3, 0], poses_in_ensemble_ := 8 }
      rfl (by decide) rfl).2.2.2.2.2.2 rfl

/-- C3: the memoized mode groups values under exact equality; it is the
arithmetic mean of the distinct values tied for the maximum group size (the
value itself if the maximum is attained uniquely); `[1,1,2,2,3]` yields
`(1+2)/2 = 3/2`. -/
theorem C3_mode_spec (m : CTEnsembleMetric)
    (hd : m.derived_finalized_ = false)
    (hn : m.values_ ≠ [])
    (hp : m.poses_in_ensemble_ = m.values_.length) :
    (finalize_values m).2 = none ∧
    (finalize_values m).1.mode_
      = (tied_modes m.values_).sum / ((tied_modes m.values_).length : ℚ) ∧
    (∀ k : ℚ, tied_modes m.values_ = [k] → (finalize_values m).1.mode_ = k) ∧
    (m.values_ = [1, 1, 2, 2, 3] → (finalize_values m).1.mode_ = 3 / 2) := by
  have hpz : ¬ m.poses_in_ensemble_ = 0 := by
    rw [hp]; exact fun h => hn (List.length_eq_zero.mp h)
  have hmode := finalize_values_mode m hd hpz
  have hfold := modeFold_countsList m.values_
  have hmode' : (finalize_values m).1.mode_
      = (tied_modes m.values_).sum / ((tied_modes m.values_).length : ℚ) := by
    rw [hmode, hfold.1, hfold.2]
  refine ⟨finalize_values_ok m hd hpz, hmode', ?_, ?_⟩
  · intro k hk
    rw [hmode', hk]
    simp
  · intro hv
    rw [hmode', hv]
    have h1 : ([1, 1, 2, 2, 3] : List ℚ).dedup = [1, 2, 3] := by
      norm_num [List.dedup_cons_of_mem, List.dedup_cons_of_not_mem]
    have h2 : max_multiplicity [1, 1, 2, 2, 3] = 2 := by
      norm_num [max_multiplicity, h1, List.count_cons]
    have h3 : tied_modes [1, 1, 2, 2, 3] = [1, 2] := by
      rw [tied_modes, h1, h2]
      norm_num [List.count_cons]
    rw [h3]
    norm_num

/-- C3 witness: the theorem applied to the two-way-tie example. -/
theorem C3_mode_spec_witness :
    (finalize_values
      ({ values_ := [1, 1, 2, 2, 3], poses_in_ensemble_ := 5 } : CTEnsembleMetric)).1.mode_
        = 3 / 2 :=
  (C3_mode_spec { values_ := [1, 1, 2, 2, 3], poses_in_ensemble_ := 5 }
    rfl (by decide) rfl).2.2.2 rfl

/-- C4 counterexample: finalizing a fresh (empty) metric fails with the
empty-ensemble error, but it sets the derived memoization flag; after the
failure, adding the value `5` and finalizing again succeeds and a
value-by-name lookup observes the stale memoized zero mean instead of the
mean `5` of the newly added values — refuting the claim that a failed
finalize never leaves behind an observable memoized record. -/
theorem C4_claim_counterexample :
    (produce_final_report ({} : CTEnsembleMetric)).2 = some .emptyEnsemble ∧
    (produce_final_report ({} : CTEnsembleMetric)).1.finalized_ = false ∧
    (produce_final_report ({} : CTEnsembleMetric)).1.derived_finalized_ = true ∧
    (apply (produce_final_report ({} : CTEnsembleMetric)).1 ⟨5, [], []⟩).2 = none ∧
    (apply (produce_final_report ({} : CTEnsembleMetric)).1 ⟨5, [], []⟩).1.values_
      = [5] ∧
    (produce_final_report
      (apply (produce_final_report ({} : CTEnsembleMetric)).1 ⟨5, [], []⟩).1).2 = none ∧
    get_real_metric_value_by_name
      (produce_final_report
        (apply (produce_final_report ({} : CTEnsembleMetric)).1 ⟨5, [], []⟩).1).1 "mean"
      = .ok 0 ∧
    (([5] : List ℚ).sum / (([5] : List ℚ).length : ℚ)) = 5 ∧
    (0 : ℚ) ≠ 5 := by
  refine ⟨rfl, rfl, rfl, rfl, rfl, rfl, rfl, by norm_num, by norm_num⟩

/-- C4 (amended): producing the final report on an accumulator holding zero
values fails with the empty-ensemble error and leaves the base finalization
flag clear (so an immediate value-by-name lookup still fails), but the failed
attempt sets the derived memoization flag; consequently, adding values and
finalizing again succeeds and reports the stale zero-initialized memoized
statistics instead of statistics computed from the newly added values. -/
theorem C4_failed_finalize_behaviour (m : CTEnsembleMetric)
    (hd : m.derived_finalized_ = false) (hf : m.finalized_ = false)
    (hp : m.poses_in_ensemble_ = 0) (hmean : m.mean_ = 0)
    (hg : m.ensemble_generating_protocol_ = none)
    (hu : m.use_additional_output_from_last_mover_ = false) :
    (produce_final_report m).2 = some .emptyEnsemble ∧
    (produce_final_report m).1.finalized_ = false ∧
    get_real_metric_value_by_name (produce_final_report m).1 "mean"
      = .error .notFinalized ∧
    (produce_final_report m).1.derived_finalized_ = true ∧
    (∀ v : ℚ,
      (produce_final_report (apply (produce_final_report m).1 ⟨v, [], []⟩).1).2
        = none ∧
      (produce_final_report
        (apply (produce_final_report m).1 ⟨v, [], []⟩).1).1.finalized_ = true ∧
      get_real_metric_value_by_name
        (produce_final_report (apply (produce_final_report m).1 ⟨v, [], []⟩).1).1
        "mean" = .ok 0) := by
  have hE := finalize_values_empty m hd hp
  have hr : produce_final_report m
      = ({ m with derived_finalized_ := true }, some .emptyEnsemble) := by
    unfold produce_final_report
    rw [hE]
  rw [hr]
  refine ⟨rfl, hf, by simp [get_real_metric_value_by_name, hf], rfl, ?_⟩
  intro v
  have happly : apply ({ m with derived_finalized_ := true }) ⟨v, [], []⟩
      = (add_one { m with derived_finalized_ := true } v, none) := by
    unfold apply
    simp [hf, hg, hu, add_one, add_pose_to_ensemble]
  rw [happly]
  have hm2 : (add_one { m with derived_finalized_ := true } v).derived_finalized_
      = true := by
    simp [add_one, add_pose_to_ensemble]
  have hfin := finalize_values_memoized _ hm2
  have hrep : produce_final_report (add_one { m with derived_finalized_ := true } v)
      = ({ add_one { m with derived_finalized_ := true } v with finalized_ := true },
          none) := by
    unfold produce_final_report
    rw [hfin]
  rw [hrep]
  refine ⟨rfl, rfl, ?_⟩
  simp [get_real_metric_value_by_name, metric_names_for_class,
    derived_get_metric_by_name, add_one, add_pose_to_ensemble, hmean]

/-- C4 witness: the amended theorem applied to a fresh metric and value 7. -/
theorem C4_failed_finalize_behaviour_witness :
    (produce_final_report ({} : CTEnsembleMetric)).2 = some .emptyEnsemble ∧
    get_real_metric_value_by_name
      (produce_final_report
        (apply (produce_final_report ({} : CTEnsembleMetric)).1 ⟨7, [], []⟩).1).1 "mean"
      = .ok 0 := by
  have h := C4_failed_finalize_behaviour {} rfl rfl rfl rfl rfl rfl
  exact ⟨h.1, (h.2.2.2.2 7).2.2⟩

end EnsembleMetrics
